import Mathlib

/-
Verification of the muskoka-worker task-processing pipeline (main.go,
canonical version: the pubsub + cloud-storage worker).

The Go code is shallowly embedded: pure helpers (path.Join, path.Clean,
base64.RawURLEncoding, hex formatting) are translated directly; the
effectful functions (LoadFromBucket, Execute, the pubsub Receive callback)
become pure functions from an explicit environment (the outcomes of the
external calls: mkdir, object downloads, the subprocess run, file opens,
uploads, JSON encoding, publish, remove) to a trace of externally visible
events plus the Go return value (Option String models error / nil).
-/

namespace Muskoka

/-! ## Go path machinery: path.Clean and path.Join

Go path.Clean applies, repeatedly until done: collapse multiple slashes,
drop "." elements, drop "name/.." pairs, drop ".." elements at the root.
We implement this by splitting the path on slashes and processing the
elements against a stack, which is the documented semantics of Clean.
-/

/-- Split a character list on the slash character; like Go strings.Split,
the result is never empty and empty elements are kept. -/
def splitSlash : List Char → List (List Char)
  | [] => [[]]
  | c :: rest =>
    if c = '/' then [] :: splitSlash rest
    else
      match splitSlash rest with
      | [] => [[c]]
      | h :: t => (c :: h) :: t

/-- The element-processing core of Go path.Clean: `stk` is the output stack
(top first), `es` the remaining elements. Empty and dot elements are
dropped; a dotdot pops a non-dotdot top, is dropped at the root when
`rooted`, and is kept otherwise. The final stack is returned bottom-first. -/
def cleanStack (rooted : Bool) : List (List Char) → List (List Char) → List (List Char)
  | stk, [] => stk.reverse
  | stk, e :: rest =>
    if e = [] ∨ e = ['.'] then cleanStack rooted stk rest
    else if e = ['.', '.'] then
      match stk with
      | top :: stk2 =>
        if top = ['.', '.'] then cleanStack rooted (e :: top :: stk2) rest
        else cleanStack rooted stk2 rest
      | [] =>
        if rooted then cleanStack rooted [] rest
        else cleanStack rooted [e] rest
    else cleanStack rooted (e :: stk) rest

/-- Join a list of path elements with slashes (Go strings.Join with "/"). -/
def intercalateSlash : List (List Char) → List Char
  | [] => []
  | [x] => x
  | x :: xs => x ++ '/' :: intercalateSlash xs

/-- Go path.Clean on the character list of the path: rooted iff the first
character is a slash; a rooted result keeps its leading slash and an empty
non-rooted result is the dot path. -/
def goCleanData (l : List Char) : List Char :=
  match l with
  | [] => ['.']
  | c :: _ =>
    if c = '/' then '/' :: intercalateSlash (cleanStack true [] (splitSlash l))
    else
      let stack := cleanStack false [] (splitSlash l)
      if stack = [] then ['.'] else intercalateSlash stack

/-- Go path.Clean. -/
def goClean (s : String) : String := ⟨goCleanData s.data⟩

/-- Go strings.Join with the slash separator, on string data. -/
def joinSlashData : List String → List Char
  | [] => []
  | [x] => x.data
  | x :: xs => x.data ++ '/' :: joinSlashData xs

/-- Go path.Join: drop leading empty elements, join the rest with slashes
and Clean the result (the strings.Join-based implementation of the Go
standard library at the time of this code). -/
def goJoin : List String → String
  | [] => ""
  | e :: rest => if e = "" then goJoin rest else goClean ⟨joinSlashData (e :: rest)⟩

/-! ## base64.RawURLEncoding and uniqueID -/

/-- Character `n` of the base64url alphabet (A-Z, a-z, 0-9, minus,
underscore), for `n < 64`. -/
def b64Char (n : Nat) : Char :=
  if n < 26 then Char.ofNat (65 + n)
  else if n < 52 then Char.ofNat (97 + (n - 26))
  else if n < 62 then Char.ofNat (48 + (n - 52))
  else if n = 62 then '-' else '_'

/-- Go base64.RawURLEncoding.EncodeToString on a byte list: three bytes
become four alphabet characters; a two-byte remainder three characters, a
one-byte remainder two, with no padding. The index arithmetic mirrors the
bit operations of encoding (div and mod by powers of two). -/
def rawURLEncode : List Nat → List Char
  | [] => []
  | [b0] => [b64Char (b0 / 4 % 64), b64Char (b0 % 4 * 16)]
  | [b0, b1] =>
    [b64Char (b0 / 4 % 64), b64Char (b0 % 4 * 16 + b1 / 16 % 16), b64Char (b1 % 16 * 4)]
  | b0 :: b1 :: b2 :: rest =>
    b64Char (b0 / 4 % 64) :: b64Char (b0 % 4 * 16 + b1 / 16 % 16) ::
    b64Char (b1 % 16 * 4 + b2 / 64 % 4) :: b64Char (b2 % 64) :: rawURLEncode rest

/-- uniqueID (main.go): base64url-encode 32 random bytes; the randomness is
made explicit as the byte-list argument. -/
def uniqueID (randomBytes : List Nat) : String := ⟨rawURLEncode randomBytes⟩

/-! ## Hex formatting of the post hash -/

/-- Lowercase hex digit for `n < 16`. -/
def hexDigit (n : Nat) : Char :=
  if n < 10 then Char.ofNat (48 + n) else Char.ofNat (87 + n)

/-- Two lowercase hex digits of a byte, as printed by the Go %x verb. -/
def byteHex (b : Nat) : List Char := [hexDigit (b % 256 / 16), hexDigit (b % 16)]

/-- Hex string of a byte list, as printed by the Go %x verb. -/
def bytesHex (l : List Nat) : String := ⟨l.foldr (fun b acc => byteHex b ++ acc) []⟩

/-! ## Data model (main.go) -/

/-- The storageAPI constant of main.go. -/
def storageAPI : String := "https://storage.googleapis.com"

/-- The package-level configuration flags of main.go (read-only after
startup) together with the ambient os.TempDir root used by DirPath. -/
structure Config where
  cliCmdName : String
  clientName : String
  clientVersion : String
  resultsBucketName : String
  specVersion : String
  specConfig : String
  cleanupTempFiles : Bool
  tempDir : String
deriving Repr, DecidableEq

/-- TransitionMsg (main.go). blocks is a Go int, so an Int here; the two
fetch/argument loops run for i in 0 ≤ i < blocks, hence blocks.toNat
iterations. resultKey carries the json:"-" tag: never decoded from the
message, assigned from uniqueID by the receive callback. -/
structure TransitionMsg where
  blocks : Int
  specVersion : String
  specConfig : String
  key : String
  resultKey : String
deriving Repr, DecidableEq

/-- ResultFilesData (main.go): the three file URLs of the result record. -/
structure ResultFilesData where
  postState : String
  errLog : String
  outLog : String
deriving Repr, DecidableEq

/-- ResultMsg (main.go): the published result record. -/
structure ResultMsg where
  success : Bool
  postHash : String
  clientName : String
  clientVersion : String
  key : String
  files : ResultFilesData
deriving Repr, DecidableEq

/-- TransitionMsg.DirPath: path.Join(os.TempDir(), tr.Key, tr.ResultKey). -/
def TransitionMsg.DirPath (cfg : Config) (tr : TransitionMsg) : String :=
  goJoin [cfg.tempDir, tr.key, tr.resultKey]

/-- TransitionMsg.InputsBucketPathStart: "specVersion/specConfig/key". -/
def TransitionMsg.InputsBucketPathStart (tr : TransitionMsg) : String :=
  tr.specVersion ++ "/" ++ tr.specConfig ++ "/" ++ tr.key

/-- TransitionMsg.ResultsBucketPathStart:
"specVersion/specConfig/key/clientName/clientVersion/resultKey". -/
def TransitionMsg.ResultsBucketPathStart (cfg : Config) (tr : TransitionMsg) : String :=
  tr.specVersion ++ "/" ++ tr.specConfig ++ "/" ++ tr.key ++ "/" ++
    cfg.clientName ++ "/" ++ cfg.clientVersion ++ "/" ++ tr.resultKey

/-! ## Events and environments

A trace of externally visible actions is collected alongside each Go
function result, so acknowledgement, publication, uploads and cleanup can
be reasoned about. -/

/-- Which captured data an upload call sends. -/
inductive UploadSrc where
  /-- the post.ssz file opened from the staging directory -/
  | postStateFile
  /-- the captured stdout buffer -/
  | stdoutStream
  /-- the captured stderr buffer -/
  | stderrStream
deriving Repr, DecidableEq

/-- Externally visible actions of the pipeline, in program order. -/
inductive Event where
  /-- os.MkdirAll of the staging directory -/
  | mkdirDir (path : String)
  /-- a downloadInputFile call (os.Create + bucket read), attempted -/
  | fetchFile (localPath : String) (bucketPath : String)
  /-- the cmd.Run invocation of the external computation -/
  | runCmd (name : String) (args : List String)
  /-- a resultsBucket.Object(objectName).NewWriter upload, attempted -/
  | uploadObject (objectName : String) (src : UploadSrc)
  /-- resultsTopic.Publish of the encoded result record -/
  | publishRecord (record : ResultMsg)
  /-- os.RemoveAll of the staging directory -/
  | removeDir (path : String)
deriving Repr, DecidableEq

/-- Result of cmd.Run() on the external computation: nil, an
exec.ExitError carrying its Success() bit, or any other error (the command
could not be started at all). -/
inductive RunResult where
  | ok
  | exitError (succBit : Bool) (msg : String)
  | launchError (msg : String)
deriving Repr, DecidableEq

/-- Outcomes of the external calls LoadFromBucket makes: os.MkdirAll and
downloadInputFile per (local path, bucket path); none models success. -/
structure FetchEnv where
  mkdir : String → Option String
  download : String → String → Option String

/-- Outcomes of the external calls Execute makes. Fields marked logged-only
are inspected by the Go code solely to log; publishOutcome is never
inspected at all: the code blocks on Publish(...).Ready() and discards the
result without calling Get, so no field of the environment can make the
publish step fail. -/
structure ExecEnv where
  runResult : RunResult
  /-- os.Open of post.ssz for hashing -/
  postOpenErr : Option String
  /-- io.Copy into the sha256 hasher (logged-only) -/
  hashCopyErr : Option String
  /-- the bytes h.Sum(nil) returns when post.ssz was opened -/
  postHashSum : List Nat
  /-- os.Open of post.ssz for the upload (logged-only) -/
  postUploadOpenErr : Option String
  /-- io.Copy to the post-state object writer (logged-only) -/
  postUploadErr : Option String
  /-- io.Copy of stdout to its object writer (logged-only) -/
  outUploadErr : Option String
  /-- io.Copy of stderr to its object writer (logged-only) -/
  errUploadErr : Option String
  /-- json Encode of the result record -/
  encodeErr : Option String
  /-- server outcome of the publish call; never inspected by the code -/
  publishOutcome : Option String
  /-- os.RemoveAll of the staging directory (logged-only) -/
  removeErr : Option String

/-! ## LoadFromBucket -/

/-- Local and bucket file name of input block `i`. -/
def blockFileName (i : Nat) : String := "block_" ++ toString i ++ ".ssz"

/-- The fetch-failure message format of LoadFromBucket. The source uses
this same format string in the pre.ssz branch and in the block loop: the
block branch also reports pre.ssz. -/
def fetchErrMsg (sv key err : String) : String :=
  "failed to load pre.ssz for spec version " ++ sv ++ " task " ++ key ++ ": " ++ err

/-- The block-downloading loop of LoadFromBucket: `i` is the next index,
`rem` the number of blocks still to fetch. Stops at the first failing
download and wraps its error with fetchErrMsg. -/
def loadBlocks (env : FetchEnv) (fp bp sv key : String) :
    Nat → Nat → List Event × Option String
  | _, 0 => ([], none)
  | i, rem + 1 =>
    let bn := blockFileName i
    let ev := Event.fetchFile (goJoin [fp, bn]) (bp ++ "/" ++ bn)
    match env.download (goJoin [fp, bn]) (bp ++ "/" ++ bn) with
    | some e => ([ev], some (fetchErrMsg sv key e))
    | none =>
      let rest := loadBlocks env fp bp sv key (i + 1) rem
      (ev :: rest.1, rest.2)

/-- TransitionMsg.LoadFromBucket: make the staging directory, download
pre.ssz, then block_0.ssz … block_(blocks-1).ssz in order, stopping at the
first failure. -/
def TransitionMsg.LoadFromBucket (cfg : Config) (env : FetchEnv) (tr : TransitionMsg) :
    List Event × Option String :=
  let startFilepath := tr.DirPath cfg
  match env.mkdir startFilepath with
  | some e =>
    ([Event.mkdirDir startFilepath],
     some ("failed to make directory to download files to: " ++ startFilepath ++ ": " ++ e))
  | none =>
    let startBucketPath := tr.InputsBucketPathStart
    let preEv := Event.fetchFile (goJoin [startFilepath, "pre.ssz"])
      (startBucketPath ++ "/pre.ssz")
    match env.download (goJoin [startFilepath, "pre.ssz"]) (startBucketPath ++ "/pre.ssz") with
    | some e =>
      ([Event.mkdirDir startFilepath, preEv], some (fetchErrMsg tr.specVersion tr.key e))
    | none =>
      let rest := loadBlocks env startFilepath startBucketPath tr.specVersion tr.key 0
        tr.blocks.toNat
      (Event.mkdirDir startFilepath :: preEv :: rest.1, rest.2)

/-! ## Execute -/

/-- Split a string on single spaces (Go strings.Split with " "). -/
def splitSpace (s : String) : List String :=
  (splitOnChar s.data).map fun l => ⟨l⟩
where
  /-- split a character list on the space character, keeping empties -/
  splitOnChar : List Char → List (List Char)
    | [] => [[]]
    | c :: rest =>
      if c = ' ' then [] :: splitOnChar rest
      else
        match splitOnChar rest with
        | [] => [[c]]
        | h :: t => (c :: h) :: t

/-- The success flag Execute computes from cmd.Run: initialized true; on an
error it is reassigned only when the error is an exec.ExitError, to that
Success() bit of that error, so a launch error leaves it true. -/
def successOfRun : RunResult → Bool
  | RunResult.ok => true
  | RunResult.exitError b _ => b
  | RunResult.launchError _ => true

/-- The postHash array after the hashing block: zeroed by declaration, and
overwritten by copy(postHash[:], h.Sum(nil)) only when post.ssz opened
(copy writes min(32, len) bytes, the rest of the array stays zero). -/
def postHashBytes (env : ExecEnv) : List Nat :=
  match env.postOpenErr with
  | some _ => List.replicate 32 0
  | none => env.postHashSum.take 32 ++ List.replicate (32 - env.postHashSum.length) 0

/-- The three result file URLs Execute computes. Note the crossed
assignment in the source: the errLog field receives the std_out_log.txt
URL and the outLog field the std_err_log.txt URL. -/
def resultFilesOf (cfg : Config) (tr : TransitionMsg) : ResultFilesData :=
  let pathStart := tr.ResultsBucketPathStart cfg
  { postState := storageAPI ++ "/" ++ cfg.resultsBucketName ++ "/" ++ pathStart ++ "/post.ssz"
    errLog := storageAPI ++ "/" ++ cfg.resultsBucketName ++ "/" ++ pathStart ++ "/std_out_log.txt"
    outLog := storageAPI ++ "/" ++ cfg.resultsBucketName ++ "/" ++ pathStart ++ "/std_err_log.txt" }

/-- The result record Execute encodes and publishes. -/
def execRecord (cfg : Config) (env : ExecEnv) (tr : TransitionMsg) : ResultMsg :=
  { success := successOfRun env.runResult
    postHash := "0x" ++ bytesHex (postHashBytes env)
    clientName := cfg.clientName
    clientVersion := cfg.clientVersion
    key := tr.key
    files := resultFilesOf cfg tr }

/-- TransitionMsg.Execute: build the command, run it (a run error is
logged; only an ExitError adjusts success), hash post.ssz if openable,
upload the three artifacts best-effort (each io.Copy error logged-only,
the writers closed regardless), then encode the record (an encode error
returns before publish and before cleanup), publish it without inspecting
the publish outcome, and remove the staging directory when cleanup is
enabled. -/
def TransitionMsg.Execute (cfg : Config) (env : ExecEnv) (tr : TransitionMsg) :
    List Event × Option String :=
  let dir := tr.DirPath cfg
  let cmdParts := splitSpace cfg.cliCmdName
  let cmdName := cmdParts.headD ""
  let args := cmdParts.tail ++
    ["--pre", goJoin [dir, "pre.ssz"], "--post", goJoin [dir, "post.ssz"]] ++
    (List.range tr.blocks.toNat).map (fun i => goJoin [dir, blockFileName i])
  let files := resultFilesOf cfg tr
  let pre := Event.runCmd cmdName args ::
    [Event.uploadObject files.postState UploadSrc.postStateFile,
     Event.uploadObject files.outLog UploadSrc.stdoutStream,
     Event.uploadObject files.errLog UploadSrc.stderrStream]
  match env.encodeErr with
  | some e => (pre, some ("failed to encode result to JSON message: " ++ e))
  | none =>
    (pre ++ Event.publishRecord (execRecord cfg env tr) ::
      (if cfg.cleanupTempFiles then [Event.removeDir dir] else []), none)

/-! ## The receive callback of main -/

/-- Terminal action taken on the pubsub message. -/
inductive AckAction where
  | ack
  | nack
deriving Repr, DecidableEq

/-- Environment of one delivery: the decode result of the message body,
the 32 random bytes uniqueID reads, and the environments of the two
pipeline calls. -/
structure MsgEnv where
  decoded : Option TransitionMsg
  randomBytes : List Nat
  fetchEnv : FetchEnv
  execEnv : ExecEnv

/-- The message handler registered with sub.Receive in main: decode (else
nack); ack-and-ignore on a spec-version or spec-config mismatch; assign
the fresh result key; LoadFromBucket (nack on error); Execute (nack on
error); ack. -/
def handleMessage (cfg : Config) (env : MsgEnv) : List Event × AckAction :=
  match env.decoded with
  | none => ([], AckAction.nack)
  | some tm =>
    if tm.specVersion ≠ cfg.specVersion then ([], AckAction.ack)
    else if tm.specConfig ≠ cfg.specConfig then ([], AckAction.ack)
    else
      let tr := { tm with resultKey := uniqueID env.randomBytes }
      match tr.LoadFromBucket cfg env.fetchEnv with
      | (evs, some _) => (evs, AckAction.nack)
      | (evs, none) =>
        match tr.Execute cfg env.execEnv with
        | (evs2, some _) => (evs ++ evs2, AckAction.nack)
        | (evs2, none) => (evs ++ evs2, AckAction.ack)

/-! ## Trace observers -/

/-- The records carried by publish events of a trace. -/
def publishedRecords (evs : List Event) : List ResultMsg :=
  evs.filterMap fun e =>
    match e with
    | Event.publishRecord r => some r
    | _ => none

/-- Whether an event is an upload attempt. -/
def isUploadEv : Event → Bool
  | Event.uploadObject _ _ => true
  | _ => false

/-- Whether an event is a publish. -/
def isPublishEv : Event → Bool
  | Event.publishRecord _ => true
  | _ => false

/-- Whether an event is a staging-directory removal. -/
def isRemoveEv : Event → Bool
  | Event.removeDir _ => true
  | _ => false

/-- Whether an event is a staging-directory creation. -/
def isMkdirEv : Event → Bool
  | Event.mkdirDir _ => true
  | _ => false

/-- A string that is a single plain path component: nonempty, and free of
slash and dot characters (as base64url-generated attempt keys are). -/
def normalComp (l : List Char) : Prop :=
  l ≠ [] ∧ ∀ c ∈ l, c ≠ '/' ∧ c ≠ '.'

/-! ## Concrete fixtures

A configuration with the default flag values of main.go, a sample task,
and all-success environments, varied per scenario in the theorems below. -/

/-- The default flag values of main.go, with the usual /tmp temp root. -/
def cfg0 : Config :=
  { cliCmdName := "zcli transition blocks"
    clientName := "eth2team"
    clientVersion := "v0.1.2_1a2b3c4"
    resultsBucketName := "results-eth2team"
    specVersion := "v0.8.3"
    specConfig := "minimal"
    cleanupTempFiles := true
    tempDir := "/tmp" }

/-- A staged sample task with two blocks and attempt key RK. -/
def tr0 : TransitionMsg :=
  { blocks := 2, specVersion := "v0.8.3", specConfig := "minimal", key := "t1"
    resultKey := "RK" }

/-- The same task as decoded off the wire: three blocks, resultKey empty
(its json tag excludes it from decoding). -/
def tm0 : TransitionMsg :=
  { blocks := 3, specVersion := "v0.8.3", specConfig := "minimal", key := "t1"
    resultKey := "" }

/-- A fetch environment in which every external call succeeds. -/
def okFetch : FetchEnv := { mkdir := fun _ => none, download := fun _ _ => none }

/-- A fetch environment in which the download of block_1.ssz of task t1
fails with a not-found transport error and everything else succeeds. -/
def block1Fails : FetchEnv :=
  { mkdir := fun _ => none
    download := fun _ bp =>
      if bp = "v0.8.3/minimal/t1/block_1.ssz" then some "storage: object does not exist"
      else none }

/-- An execute environment in which every external call succeeds; the
sha256 sum of the produced post state is 32 bytes of 0xab. -/
def okExec : ExecEnv :=
  { runResult := RunResult.ok
    postOpenErr := none
    hashCopyErr := none
    postHashSum := List.replicate 32 171
    postUploadOpenErr := none
    postUploadErr := none
    outUploadErr := none
    errUploadErr := none
    encodeErr := none
    publishOutcome := none
    removeErr := none }

/-- A full delivery environment: tm0 decodes, the attempt key randomness
is 32 zero bytes, and both pipeline stages get the given environments. -/
def msgEnv (fe : FetchEnv) (ee : ExecEnv) : MsgEnv :=
  { decoded := some tm0
    randomBytes := List.replicate 32 0
    fetchEnv := fe
    execEnv := ee }

/-- The staged task with three blocks, for the block_1.ssz fetch-failure
scenario. -/
def tr5 : TransitionMsg :=
  { blocks := 3, specVersion := "v0.8.3", specConfig := "minimal", key := "t1"
    resultKey := "RK" }

/-- An execute environment whose command launch fails: cmd.Run returns an
error that is not an ExitError. -/
def launchEnv : ExecEnv :=
  { okExec with runResult := RunResult.launchError "executable file not found in PATH" }

/-- An execute environment in which the publish of the result record fails
on the server side. -/
def publishFailEnv : ExecEnv :=
  { okExec with publishOutcome := some "context deadline exceeded" }

/-- An execute environment in which the tool exited reporting failure and
wrote no post.ssz, so the file cannot be opened. -/
def noPostEnv : ExecEnv :=
  { okExec with
    runResult := RunResult.exitError false "exit status 1"
    postOpenErr := some "no such file or directory" }

/-- An execute environment in which cmd.Run returned an ExitError whose
Success() bit is true. -/
def exitTrueEnv : ExecEnv :=
  { okExec with runResult := RunResult.exitError true "exit status 3" }

/-! ## Helper lemmas -/

/-- loadBlocks returns no error when every download succeeds. -/
theorem loadBlocks_ok (env : FetchEnv) (fp bp sv key : String)
    (h : ∀ p b, env.download p b = none) (i rem : Nat) :
    (loadBlocks env fp bp sv key i rem).2 = none := by
  induction rem generalizing i with
  | zero => rfl
  | succ n ih => simp [loadBlocks, h, ih]

/-- Every event of loadBlocks is a fetch. -/
theorem loadBlocks_events (env : FetchEnv) (fp bp sv key : String) (i rem : Nat) :
    ∀ e ∈ (loadBlocks env fp bp sv key i rem).1, ∃ lp bpath, e = Event.fetchFile lp bpath := by
  induction rem generalizing i with
  | zero => simp [loadBlocks]
  | succ n ih =>
    intro e he
    simp only [loadBlocks] at he
    rcases hdl : env.download (goJoin [fp, blockFileName i])
        (bp ++ "/" ++ blockFileName i) with _ | err
    · rw [hdl] at he
      simp only [List.mem_cons] at he
      rcases he with rfl | he
      · exact ⟨_, _, rfl⟩
      · exact ih (i + 1) e he
    · rw [hdl] at he
      simp only [List.mem_singleton] at he
      exact ⟨_, _, he⟩

/-- LoadFromBucket returns no error when mkdir and every download
succeed. -/
theorem loadFromBucket_ok (cfg : Config) (env : FetchEnv) (tr : TransitionMsg)
    (hmk : ∀ p, env.mkdir p = none) (hdl : ∀ p b, env.download p b = none) :
    (tr.LoadFromBucket cfg env).2 = none := by
  simp [TransitionMsg.LoadFromBucket, hmk, hdl, loadBlocks_ok env _ _ _ _ hdl]

/-- Every event of LoadFromBucket is a mkdir or a fetch: it uploads,
publishes and removes nothing. -/
theorem loadFromBucket_events (cfg : Config) (env : FetchEnv) (tr : TransitionMsg) :
    ∀ e ∈ (tr.LoadFromBucket cfg env).1,
      isUploadEv e = false ∧ isPublishEv e = false ∧ isRemoveEv e = false := by
  intro e he
  have hfp : ∀ lp bpath, e = Event.fetchFile lp bpath →
      isUploadEv e = false ∧ isPublishEv e = false ∧ isRemoveEv e = false := by
    rintro lp bpath rfl; exact ⟨rfl, rfl, rfl⟩
  simp only [TransitionMsg.LoadFromBucket] at he
  rcases hmk : env.mkdir (tr.DirPath cfg) with _ | err
  · rw [hmk] at he
    rcases hpre : env.download (goJoin [tr.DirPath cfg, "pre.ssz"])
        (tr.InputsBucketPathStart ++ "/pre.ssz") with _ | err2
    · rw [hpre] at he
      simp only [List.mem_cons] at he
      rcases he with rfl | rfl | he
      · exact ⟨rfl, rfl, rfl⟩
      · exact ⟨rfl, rfl, rfl⟩
      · rcases loadBlocks_events env _ _ _ _ 0 tr.blocks.toNat e he with ⟨lp, bpath, rfl⟩
        exact ⟨rfl, rfl, rfl⟩
    · rw [hpre] at he
      simp only [List.mem_cons, List.not_mem_nil, or_false] at he
      rcases he with rfl | rfl
      · exact ⟨rfl, rfl, rfl⟩
      · exact ⟨rfl, rfl, rfl⟩
  · rw [hmk] at he
    simp only [List.mem_singleton] at he
    subst he
    exact ⟨rfl, rfl, rfl⟩

/-- Execute publishes at most one record. -/
theorem execute_publish_count (cfg : Config) (env : ExecEnv) (tr : TransitionMsg) :
    (tr.Execute cfg env).1.countP isPublishEv ≤ 1 := by
  rcases henc : env.encodeErr with _ | e
  · rcases hcl : cfg.cleanupTempFiles <;>
      simp [TransitionMsg.Execute, henc, hcl, isPublishEv, List.countP_cons]
  · simp [TransitionMsg.Execute, henc, isPublishEv, List.countP_cons]

/-- A whole delivery publishes at most one record. -/
theorem handleMessage_publish_count (cfg : Config) (env : MsgEnv) :
    (handleMessage cfg env).1.countP isPublishEv ≤ 1 := by
  rcases hdec : env.decoded with _ | tm
  · simp [handleMessage, hdec]
  · simp only [handleMessage, hdec]
    by_cases hv : tm.specVersion ≠ cfg.specVersion
    · simp [hv]
    · simp only [hv, if_false]
      by_cases hc : tm.specConfig ≠ cfg.specConfig
      · simp [hc]
      · simp only [hc, if_false]
        have hload := loadFromBucket_events cfg env.fetchEnv
          { tm with resultKey := uniqueID env.randomBytes }
        rcases hL : TransitionMsg.LoadFromBucket cfg env.fetchEnv
            { tm with resultKey := uniqueID env.randomBytes } with ⟨evs, res⟩
        rw [hL] at hload
        have hcnt : evs.countP isPublishEv = 0 := by
          rw [List.countP_eq_zero]
          intro a ha
          simp [(hload a ha).2.1]
        rcases res with _ | err
        · rcases hE : TransitionMsg.Execute cfg env.execEnv
              { tm with resultKey := uniqueID env.randomBytes } with ⟨evs2, res2⟩
          have hcnt2 := execute_publish_count cfg env.execEnv
            { tm with resultKey := uniqueID env.randomBytes }
          rw [hE] at hcnt2
          rcases res2 with _ | err2 <;>
            simp [List.countP_append, hcnt, hcnt2]
        · simp [hcnt]

/-- No base64url alphabet character is a slash or a dot. -/
theorem b64Char_ok : ∀ n, n < 64 → b64Char n ≠ '/' ∧ b64Char n ≠ '.' := by
  decide

/-- Every character of a base64url encoding avoids slash and dot. -/
theorem rawURLEncode_chars : ∀ (l : List Nat), ∀ c ∈ rawURLEncode l, c ≠ '/' ∧ c ≠ '.'
  | [] => by simp [rawURLEncode]
  | [b0] => by
    intro c hc
    simp only [rawURLEncode, List.mem_cons, List.not_mem_nil, or_false] at hc
    rcases hc with rfl | rfl <;> exact b64Char_ok _ (by omega)
  | [b0, b1] => by
    intro c hc
    simp only [rawURLEncode, List.mem_cons, List.not_mem_nil, or_false] at hc
    rcases hc with rfl | rfl | rfl <;> exact b64Char_ok _ (by omega)
  | b0 :: b1 :: b2 :: rest => by
    intro c hc
    simp only [rawURLEncode, List.mem_cons] at hc
    rcases hc with rfl | rfl | rfl | rfl | h
    · exact b64Char_ok _ (by omega)
    · exact b64Char_ok _ (by omega)
    · exact b64Char_ok _ (by omega)
    · exact b64Char_ok _ (by omega)
    · exact rawURLEncode_chars rest c h

/-- A nonempty byte list has a nonempty encoding. -/
theorem rawURLEncode_ne_nil : ∀ (l : List Nat), l ≠ [] → rawURLEncode l ≠ []
  | [], h => absurd rfl h
  | [_], _ => by simp [rawURLEncode]
  | [_, _], _ => by simp [rawURLEncode]
  | _ :: _ :: _ :: _, _ => by simp [rawURLEncode]

/-- splitSlash never returns the empty list. -/
theorem splitSlash_ne_nil : ∀ (l : List Char), splitSlash l ≠ []
  | [] => by simp [splitSlash]
  | c :: rest => by
    by_cases h : c = '/'
    · simp [splitSlash, h]
    · simp only [splitSlash, if_neg h]
      rcases hs : splitSlash rest with _ | ⟨a, b⟩ <;> simp

/-- A slash-free list splits to itself alone. -/
theorem splitSlash_noslash : ∀ (l : List Char), (∀ c ∈ l, c ≠ '/') → splitSlash l = [l]
  | [], _ => rfl
  | c :: rest, h => by
    have hc : c ≠ '/' := h c (by simp)
    have ih := splitSlash_noslash rest (fun x hx => h x (by simp [hx]))
    simp only [splitSlash, if_neg hc, ih]

/-- Splitting past a slash that precedes a slash-free suffix appends that
suffix as one element. -/
theorem splitSlash_append (xs ys : List Char) (h : ∀ c ∈ ys, c ≠ '/') :
    splitSlash (xs ++ '/' :: ys) = splitSlash xs ++ [ys] := by
  induction xs with
  | nil => simp [splitSlash, splitSlash_noslash ys h]
  | cons c xs ih =>
    by_cases hc : c = '/'
    · simp [splitSlash, hc, ih]
    · simp only [List.cons_append, splitSlash, if_neg hc]
      rcases hs : splitSlash xs with _ | ⟨a, t⟩
      · exact absurd hs (splitSlash_ne_nil xs)
      · have ih2 : splitSlash (xs.append ('/' :: ys)) = splitSlash xs ++ [ys] := ih
        rw [ih2, hs]
        simp

/-- Processing a trailing plain element pushes it: the cleaned stack of
elements followed by a plain component is the cleaned stack of the
elements with that component appended. -/
theorem cleanStack_snoc (e : List Char) (he1 : e ≠ []) (he2 : e ≠ ['.'])
    (he3 : e ≠ ['.', '.']) :
    ∀ (es : List (List Char)) (rooted : Bool) (stk : List (List Char)),
    cleanStack rooted stk (es ++ [e]) = cleanStack rooted stk es ++ [e]
  | [], rooted, stk => by
    simp only [List.nil_append, cleanStack, if_neg (not_or.mpr ⟨he1, he2⟩), if_neg he3]
    simp [cleanStack]
  | e2 :: es, rooted, stk => by
    simp only [List.cons_append, cleanStack]
    by_cases h1 : e2 = [] ∨ e2 = ['.']
    · simp only [if_pos h1]
      exact cleanStack_snoc e he1 he2 he3 es rooted stk
    · simp only [if_neg h1]
      by_cases h2 : e2 = ['.', '.']
      · simp only [if_pos h2]
        rcases stk with _ | ⟨top, stk2⟩
        · cases rooted <;> simp only [if_pos rfl, if_neg, Bool.false_ne_true] <;>
            exact cleanStack_snoc e he1 he2 he3 es _ _
        · by_cases h3 : top = ['.', '.']
          · simp only [if_pos h3]
            exact cleanStack_snoc e he1 he2 he3 es rooted _
          · simp only [if_neg h3]
            exact cleanStack_snoc e he1 he2 he3 es rooted stk2
      · simp only [if_neg h2]
        exact cleanStack_snoc e he1 he2 he3 es rooted _

/-- Appending a final element to a nonempty element list appends it to the
slash-joined string after a slash. -/
theorem intercalateSlash_snoc (S : List (List Char)) (x : List Char) (h : S ≠ []) :
    intercalateSlash (S ++ [x]) = intercalateSlash S ++ '/' :: x := by
  induction S with
  | nil => exact absurd rfl h
  | cons a S ih =>
    rcases S with _ | ⟨b, S⟩
    · simp [intercalateSlash]
    · have ih2 := ih (by simp)
      simp only [List.cons_append, intercalateSlash] at ih2 ⊢
      simp [intercalateSlash, ih2, List.append_assoc]

/-- The slash-joined string determines the final element. -/
theorem intercalateSlash_snoc_inj (S : List (List Char)) (a b : List Char)
    (h : intercalateSlash (S ++ [a]) = intercalateSlash (S ++ [b])) : a = b := by
  rcases S with _ | ⟨s, S⟩
  · simpa [intercalateSlash] using h
  · rw [intercalateSlash_snoc (s :: S) a (by simp),
      intercalateSlash_snoc (s :: S) b (by simp)] at h
    have h2 := List.append_cancel_left h
    simpa using h2

/-- Cleaning a path that ends in a slash then a plain component determines
that component: path.Clean keeps a trailing plain component intact. -/
theorem goCleanData_snoc_inj (P r1 r2 : List Char)
    (h1 : normalComp r1) (h2 : normalComp r2)
    (heq : goCleanData (P ++ '/' :: r1) = goCleanData (P ++ '/' :: r2)) : r1 = r2 := by
  obtain ⟨hne1, hch1⟩ := h1
  obtain ⟨hne2, hch2⟩ := h2
  have hd1 : r1 ≠ ['.'] := fun h => absurd rfl ((hch1 '.' (by simp [h])).2)
  have hd2 : r2 ≠ ['.'] := fun h => absurd rfl ((hch2 '.' (by simp [h])).2)
  have hdd1 : r1 ≠ ['.', '.'] := fun h => absurd rfl ((hch1 '.' (by simp [h])).2)
  have hdd2 : r2 ≠ ['.', '.'] := fun h => absurd rfl ((hch2 '.' (by simp [h])).2)
  have hs1 : splitSlash (P ++ '/' :: r1) = splitSlash P ++ [r1] :=
    splitSlash_append P r1 (fun c hc => (hch1 c hc).1)
  have hs2 : splitSlash (P ++ '/' :: r2) = splitSlash P ++ [r2] :=
    splitSlash_append P r2 (fun c hc => (hch2 c hc).1)
  have hc1 : ∀ ro, cleanStack ro [] (splitSlash P ++ [r1]) =
      cleanStack ro [] (splitSlash P) ++ [r1] :=
    fun ro => cleanStack_snoc r1 hne1 hd1 hdd1 (splitSlash P) ro []
  have hc2 : ∀ ro, cleanStack ro [] (splitSlash P ++ [r2]) =
      cleanStack ro [] (splitSlash P) ++ [r2] :=
    fun ro => cleanStack_snoc r2 hne2 hd2 hdd2 (splitSlash P) ro []
  rcases P with _ | ⟨p, P⟩
  · simp only [List.nil_append] at heq hs1 hs2
    rw [goCleanData, if_pos rfl, goCleanData, if_pos rfl, hs1, hs2,
      hc1 true, hc2 true] at heq
    have hz : cleanStack true [] (splitSlash ([] : List Char)) = [] := rfl
    rw [hz] at heq
    simpa [intercalateSlash] using heq
  · simp only [List.cons_append] at heq hs1 hs2
    by_cases hp : p = '/'
    · rw [goCleanData, if_pos hp, goCleanData, if_pos hp, hs1, hs2,
        hc1 true, hc2 true] at heq
      have h3 := List.cons_injective heq
      exact intercalateSlash_snoc_inj _ _ _ h3
    · rw [goCleanData, if_neg hp, goCleanData, if_neg hp] at heq
      simp only [hs1, hs2, hc1, hc2] at heq
      rw [if_neg (by simp), if_neg (by simp)] at heq
      exact intercalateSlash_snoc_inj _ _ _ heq

/-- Cleaning a single plain component leaves it unchanged. -/
theorem goCleanData_single (r : List Char) (h : normalComp r) : goCleanData r = r := by
  obtain ⟨hne, hch⟩ := h
  rcases r with _ | ⟨c, rest⟩
  · exact absurd rfl hne
  · have hc : c ≠ '/' := (hch c (by simp)).1
    have hcd : c ≠ '.' := (hch c (by simp)).2
    rw [goCleanData, if_neg hc, splitSlash_noslash _ (fun x hx => (hch x hx).1)]
    have hpush : cleanStack false [] [c :: rest] = [c :: rest] := by
      simp [cleanStack, hcd]
    rw [hpush]
    simp [intercalateSlash]

/-- Joining three path elements with Go path.Join determines the last
element when that element is a plain component (no slash, no dot,
nonempty), whatever the first two are. -/
theorem goJoin3_inj (t k r1 r2 : String)
    (h1 : normalComp r1.data) (h2 : normalComp r2.data) (hne : r1 ≠ r2) :
    goJoin [t, k, r1] ≠ goJoin [t, k, r2] := by
  intro heq
  apply hne
  have hdata : r1.data = r2.data → r1 = r2 := by
    intro h
    cases r1
    cases r2
    exact congrArg String.mk h
  by_cases ht : t = ""
  · subst ht
    by_cases hk : k = ""
    · subst hk
      have hr1 : r1 ≠ "" := by
        intro h
        exact h1.1 (by rw [h])
      have hr2 : r2 ≠ "" := by
        intro h
        exact h2.1 (by rw [h])
      simp only [goJoin, if_pos rfl, if_neg hr1, if_neg hr2] at heq
      apply hdata
      have e1 : goClean ⟨joinSlashData [r1]⟩ = ⟨r1.data⟩ := by
        show (⟨goCleanData r1.data⟩ : String) = ⟨r1.data⟩
        rw [goCleanData_single r1.data h1]
      have e2 : goClean ⟨joinSlashData [r2]⟩ = ⟨r2.data⟩ := by
        show (⟨goCleanData r2.data⟩ : String) = ⟨r2.data⟩
        rw [goCleanData_single r2.data h2]
      rw [e1, e2] at heq
      exact congrArg String.data heq
    · simp only [goJoin, if_pos rfl, if_neg hk] at heq
      apply hdata
      have e1 : goClean ⟨joinSlashData [k, r1]⟩ =
          ⟨goCleanData (k.data ++ '/' :: r1.data)⟩ := rfl
      have e2 : goClean ⟨joinSlashData [k, r2]⟩ =
          ⟨goCleanData (k.data ++ '/' :: r2.data)⟩ := rfl
      rw [e1, e2] at heq
      exact goCleanData_snoc_inj k.data r1.data r2.data h1 h2
        (congrArg String.data heq)
  · simp only [goJoin, if_neg ht] at heq
    apply hdata
    have hj : ∀ r : String, joinSlashData [t, k, r] =
        (t.data ++ '/' :: k.data) ++ '/' :: r.data := by
      intro r
      show t.data ++ '/' :: (k.data ++ '/' :: r.data) = _
      simp [List.append_assoc]
    have e1 : goClean ⟨joinSlashData [t, k, r1]⟩ =
        ⟨goCleanData ((t.data ++ '/' :: k.data) ++ '/' :: r1.data)⟩ := by
      rw [goClean]
      show (⟨goCleanData (joinSlashData [t, k, r1])⟩ : String) = _
      rw [hj r1]
    have e2 : goClean ⟨joinSlashData [t, k, r2]⟩ =
        ⟨goCleanData ((t.data ++ '/' :: k.data) ++ '/' :: r2.data)⟩ := by
      rw [goClean]
      show (⟨goCleanData (joinSlashData [t, k, r2])⟩ : String) = _
      rw [hj r2]
    rw [e1, e2] at heq
    exact goCleanData_snoc_inj (t.data ++ '/' :: k.data) r1.data r2.data h1 h2
      (congrArg String.data heq)

/-- Execute returns nil when the record encodes. -/
theorem execute_ok (cfg : Config) (env : ExecEnv) (tr : TransitionMsg)
    (henc : env.encodeErr = none) : (tr.Execute cfg env).2 = none := by
  simp [TransitionMsg.Execute, henc]

/-- Execute publishes its record when the record encodes. -/
theorem execute_publishes (cfg : Config) (env : ExecEnv) (tr : TransitionMsg)
    (henc : env.encodeErr = none) :
    execRecord cfg env tr ∈ publishedRecords (tr.Execute cfg env).1 := by
  rcases hcl : cfg.cleanupTempFiles <;>
    simp [TransitionMsg.Execute, henc, hcl, publishedRecords, isPublishEv]

/-- A delivery whose message decodes and matches the spec version of the worker
and config runs the load-then-execute pipeline on the freshly keyed task. -/
theorem handleMessage_matched (cfg : Config) (env : MsgEnv) (tm : TransitionMsg)
    (hdec : env.decoded = some tm)
    (hv : tm.specVersion = cfg.specVersion)
    (hc : tm.specConfig = cfg.specConfig) :
    handleMessage cfg env =
      match TransitionMsg.LoadFromBucket cfg env.fetchEnv
          { tm with resultKey := uniqueID env.randomBytes } with
      | (evs, some _) => (evs, AckAction.nack)
      | (evs, none) =>
        match TransitionMsg.Execute cfg env.execEnv
            { tm with resultKey := uniqueID env.randomBytes } with
        | (evs2, some _) => (evs ++ evs2, AckAction.nack)
        | (evs2, none) => (evs ++ evs2, AckAction.ack) := by
  simp only [handleMessage, hdec]
  rw [if_neg (by simp [hv]), if_neg (by simp [hc])]

/-! ## Claim theorems -/

/-- C1, counterexample: at a concrete delivery whose command launch fails
(cmd.Run returns a non-ExitError error) and every other external call
succeeds, a result record is still published — with success true — and
the message is acknowledged, so the attempt is not aborted as the claim
states. -/
theorem launchError_no_abort_concrete :
    (handleMessage cfg0 (msgEnv okFetch launchEnv)).2 = AckAction.ack ∧
    (publishedRecords (handleMessage cfg0 (msgEnv okFetch launchEnv)).1).map
      ResultMsg.success = [true] := by
  decide

/-- C1, amended: when the command launch fails, Execute logs the error and
continues — a non-ExitError run error leaves the success flag true — so
with the other calls succeeding a result record with success = true is
published and the message is acknowledged, not rejected. -/
theorem launchError_publishes_and_acks (cfg : Config) (env : MsgEnv)
    (tm : TransitionMsg) (m : String)
    (hdec : env.decoded = some tm)
    (hv : tm.specVersion = cfg.specVersion)
    (hc : tm.specConfig = cfg.specConfig)
    (hmk : ∀ p, env.fetchEnv.mkdir p = none)
    (hdl : ∀ p b, env.fetchEnv.download p b = none)
    (hrun : env.execEnv.runResult = RunResult.launchError m)
    (henc : env.execEnv.encodeErr = none) :
    (handleMessage cfg env).2 = AckAction.ack ∧
    ∃ r ∈ publishedRecords (handleMessage cfg env).1, r.success = true := by
  rw [handleMessage_matched cfg env tm hdec hv hc]
  have hload := loadFromBucket_ok cfg env.fetchEnv
    { tm with resultKey := uniqueID env.randomBytes } hmk hdl
  rcases hL : TransitionMsg.LoadFromBucket cfg env.fetchEnv
      { tm with resultKey := uniqueID env.randomBytes } with ⟨evs, res⟩
  rw [hL] at hload
  subst hload
  have hpub := execute_publishes cfg env.execEnv
    { tm with resultKey := uniqueID env.randomBytes } henc
  have hok := execute_ok cfg env.execEnv
    { tm with resultKey := uniqueID env.randomBytes } henc
  rcases hE : TransitionMsg.Execute cfg env.execEnv
      { tm with resultKey := uniqueID env.randomBytes } with ⟨evs2, res2⟩
  rw [hE] at hpub hok
  subst hok
  refine ⟨rfl, execRecord cfg env.execEnv { tm with resultKey := uniqueID env.randomBytes },
    ?_, ?_⟩
  · rw [publishedRecords, List.filterMap_append, List.mem_append]
    exact Or.inr hpub
  · simp [execRecord, hrun, successOfRun]

/-- C1, witness: the amended statement at the concrete launch-failure
delivery. -/
theorem launchError_publishes_and_acks_witness :
    (handleMessage cfg0 (msgEnv okFetch launchEnv)).2 = AckAction.ack ∧
    ∃ r ∈ publishedRecords (handleMessage cfg0 (msgEnv okFetch launchEnv)).1,
      r.success = true :=
  launchError_publishes_and_acks cfg0 (msgEnv okFetch launchEnv) tm0
    "executable file not found in PATH" rfl rfl rfl (fun _ => rfl) (fun _ _ => rfl)
    rfl rfl

/-- C2, counterexample: at a concrete delivery where the publish of the
result record fails on the server side and everything else succeeds,
Execute still returns nil and the message is acknowledged, so a failed
record emission is followed by acknowledgment, contradicting the claim. -/
theorem publishFailure_still_acked :
    (handleMessage cfg0 (msgEnv okFetch publishFailEnv)).2 = AckAction.ack ∧
    (publishedRecords (handleMessage cfg0 (msgEnv okFetch publishFailEnv)).1).length = 1 ∧
    (tr0.Execute cfg0 publishFailEnv).2 = none := by
  decide

/-- C2, amended: Execute never inspects the outcome of the publish call
(the code blocks on Publish(...).Ready() and discards the result without
calling Get), so its whole behaviour is unchanged by any publish outcome;
whenever the record JSON-encodes successfully Execute returns nil — and
the message is therefore acknowledged — even if the emission failed. Only
a failure to encode the record makes Execute return an error. -/
theorem publishOutcome_never_inspected (cfg : Config) (env : ExecEnv)
    (tr : TransitionMsg) (p : Option String) :
    tr.Execute cfg { env with publishOutcome := p } = tr.Execute cfg env ∧
    (env.encodeErr = none → (tr.Execute cfg env).2 = none) := by
  refine ⟨rfl, fun h => ?_⟩
  simp [TransitionMsg.Execute, h]

/-- C3, counterexample: at a concrete attempt whose post.ssz cannot be
opened, the post-hash of the published record is the hex of the zero-filled
32-byte array — sixty-four zero digits, not empty or absent — so the
digest field is exactly the zero-filled hash the claim excludes (the
success field does track the status of the tool). -/
theorem missingPost_zeroHash_concrete :
    (publishedRecords (tr0.Execute cfg0 noPostEnv).1).map ResultMsg.postHash =
      ["0x0000000000000000000000000000000000000000000000000000000000000000"] ∧
    (publishedRecords (tr0.Execute cfg0 noPostEnv).1).map ResultMsg.success = [false] := by
  decide

/-- C3, amended: when post.ssz cannot be opened after execution, the
record still reaches publication and its post-hash is the hex encoding of
the zero-filled 32-byte array (0x followed by 64 zero digits) — a
zero-filled hash rather than an empty or absent digest — while the
success field reflects the run outcome independently of the digest. -/
theorem missingPost_publishes_zero_filled_hash (cfg : Config) (env : ExecEnv)
    (tr : TransitionMsg) (e : String)
    (hopen : env.postOpenErr = some e) (henc : env.encodeErr = none) :
    publishedRecords (tr.Execute cfg env).1 = [execRecord cfg env tr] ∧
    (execRecord cfg env tr).postHash =
      "0x0000000000000000000000000000000000000000000000000000000000000000" ∧
    (execRecord cfg env tr).success = successOfRun env.runResult := by
  refine ⟨?_, ?_, rfl⟩
  · rcases hcl : cfg.cleanupTempFiles <;>
      simp [TransitionMsg.Execute, henc, hcl, publishedRecords, isPublishEv]
  · simp only [execRecord, postHashBytes, hopen]
    decide

/-- C3, witness: the amended statement at the concrete no-post attempt. -/
theorem missingPost_zero_filled_witness :
    publishedRecords (tr0.Execute cfg0 noPostEnv).1 = [execRecord cfg0 noPostEnv tr0] ∧
    (execRecord cfg0 noPostEnv tr0).postHash =
      "0x0000000000000000000000000000000000000000000000000000000000000000" ∧
    (execRecord cfg0 noPostEnv tr0).success = successOfRun noPostEnv.runResult :=
  missingPost_publishes_zero_filled_hash cfg0 noPostEnv tr0
    "no such file or directory" rfl rfl

/-- C4, confirmed: Execute takes the success flag of the record from the
Success() bit of an ExitError returned by cmd.Run, so a run that exits
with its own success status — whatever the process exit code — yields a
published record with success equal to that bit (true in the claim), and
the non-default exit does not make Execute fail the attempt. -/
theorem exitSuccessBit_setsRecordSuccess (cfg : Config) (env : ExecEnv)
    (tr : TransitionMsg) (b : Bool) (m : String)
    (hrun : env.runResult = RunResult.exitError b m)
    (henc : env.encodeErr = none) :
    (tr.Execute cfg env).2 = none ∧
    publishedRecords (tr.Execute cfg env).1 = [execRecord cfg env tr] ∧
    (execRecord cfg env tr).success = b := by
  refine ⟨?_, ?_, ?_⟩
  · simp [TransitionMsg.Execute, henc]
  · rcases hcl : cfg.cleanupTempFiles <;>
      simp [TransitionMsg.Execute, henc, hcl, publishedRecords, isPublishEv]
  · simp [execRecord, hrun, successOfRun]

/-- C4, witness: the theorem at the concrete ExitError-with-success-bit
environment. -/
theorem exitSuccessBit_witness :
    (tr0.Execute cfg0 exitTrueEnv).2 = none ∧
    publishedRecords (tr0.Execute cfg0 exitTrueEnv).1 = [execRecord cfg0 exitTrueEnv tr0] ∧
    (execRecord cfg0 exitTrueEnv tr0).success = true :=
  exitSuccessBit_setsRecordSuccess cfg0 exitTrueEnv tr0 true "exit status 3" rfl rfl

/-- C5, code bug, evaluated at the failing input: for the three-block task
t1 whose block_1.ssz download fails, LoadFromBucket makes the directory,
fetches pre.ssz and block_0.ssz, attempts block_1.ssz and nothing after it
(no block_2.ssz, no retry) — but the returned error, which should name the
failed artifact, says pre.ssz: the block loop reuses the pre.ssz error
format string. -/
theorem blockFetch_error_misnames_artifact :
    tr5.LoadFromBucket cfg0 block1Fails =
      ([Event.mkdirDir "/tmp/t1/RK",
        Event.fetchFile "/tmp/t1/RK/pre.ssz" "v0.8.3/minimal/t1/pre.ssz",
        Event.fetchFile "/tmp/t1/RK/block_0.ssz" "v0.8.3/minimal/t1/block_0.ssz",
        Event.fetchFile "/tmp/t1/RK/block_1.ssz" "v0.8.3/minimal/t1/block_1.ssz"],
       some "failed to load pre.ssz for spec version v0.8.3 task t1: storage: object does not exist") := by
  decide

/-- C6, confirmed: DirPath is a function of the temp root, the task key
and the attempt key alone, and for attempt keys produced by uniqueID from
32 random bytes — base64url strings, hence plain path components — two
different attempt keys give two different staging paths even for the same
task key, so concurrent attempts never share a staging directory. -/
theorem dirPath_unique_per_attempt (cfg : Config) (tr : TransitionMsg)
    (b1 b2 : List Nat) (h1 : b1.length = 32) (h2 : b2.length = 32)
    (hne : uniqueID b1 ≠ uniqueID b2) :
    TransitionMsg.DirPath cfg { tr with resultKey := uniqueID b1 } ≠
      TransitionMsg.DirPath cfg { tr with resultKey := uniqueID b2 } ∧
    (∀ (tr2 tr3 : TransitionMsg), tr2.key = tr3.key → tr2.resultKey = tr3.resultKey →
      tr2.DirPath cfg = tr3.DirPath cfg) := by
  constructor
  · have hn1 : normalComp (uniqueID b1).data := by
      refine ⟨rawURLEncode_ne_nil b1 ?_, rawURLEncode_chars b1⟩
      intro h
      rw [h] at h1
      simp at h1
    have hn2 : normalComp (uniqueID b2).data := by
      refine ⟨rawURLEncode_ne_nil b2 ?_, rawURLEncode_chars b2⟩
      intro h
      rw [h] at h2
      simp at h2
    exact goJoin3_inj cfg.tempDir tr.key (uniqueID b1) (uniqueID b2) hn1 hn2 hne
  · intro tr2 tr3 hk hr
    simp [TransitionMsg.DirPath, hk, hr]

/-- C6, witness: two distinct generated attempt keys — the encodings of
the all-zero byte draw and of the draw ending in one — give distinct
staging paths for the same task. -/
theorem dirPath_unique_witness :
    (TransitionMsg.DirPath cfg0 { tr0 with resultKey := uniqueID (List.replicate 32 0) } ≠
      TransitionMsg.DirPath cfg0
        { tr0 with resultKey := uniqueID (List.replicate 31 0 ++ [1]) }) ∧
    (∀ (tr2 tr3 : TransitionMsg), tr2.key = tr3.key → tr2.resultKey = tr3.resultKey →
      tr2.DirPath cfg0 = tr3.DirPath cfg0) :=
  dirPath_unique_per_attempt cfg0 tr0 (List.replicate 32 0) (List.replicate 31 0 ++ [1])
    (by decide) (by decide) (by decide)

/-- C7, code bug, evaluated at a concrete attempt: the captured stdout
stream is uploaded to the object whose name ends in std_err_log.txt and
the stderr stream to the one ending in std_out_log.txt (the out-log
field of the record likewise holds the std_err_log.txt URL and err-log the
std_out_log.txt URL), and the object names passed to the bucket are the
full storage URLs, not bucket-relative template paths. -/
theorem stdout_uploaded_to_stderr_object :
    (tr0.Execute cfg0 okExec).1.filter isUploadEv =
      [Event.uploadObject
        "https://storage.googleapis.com/results-eth2team/v0.8.3/minimal/t1/eth2team/v0.1.2_1a2b3c4/RK/post.ssz"
        UploadSrc.postStateFile,
       Event.uploadObject
        "https://storage.googleapis.com/results-eth2team/v0.8.3/minimal/t1/eth2team/v0.1.2_1a2b3c4/RK/std_err_log.txt"
        UploadSrc.stdoutStream,
       Event.uploadObject
        "https://storage.googleapis.com/results-eth2team/v0.8.3/minimal/t1/eth2team/v0.1.2_1a2b3c4/RK/std_out_log.txt"
        UploadSrc.stderrStream] ∧
    (resultFilesOf cfg0 tr0).outLog =
      "https://storage.googleapis.com/results-eth2team/v0.8.3/minimal/t1/eth2team/v0.1.2_1a2b3c4/RK/std_err_log.txt" ∧
    (resultFilesOf cfg0 tr0).errLog =
      "https://storage.googleapis.com/results-eth2team/v0.8.3/minimal/t1/eth2team/v0.1.2_1a2b3c4/RK/std_out_log.txt" := by
  decide

/-- C8, confirmed: the three artifact uploads are attempted on every
execution and their outcomes influence nothing (Execute is unchanged under
any upload outcomes); the trace holds exactly three upload attempts, at
most one publish, every upload precedes every publish, every published
record carries all three intended file references, and a whole delivery
publishes at most once. -/
theorem uploads_bestEffort_single_publish (cfg : Config) (env : ExecEnv)
    (tr : TransitionMsg) (menv : MsgEnv) (u1 u2 u3 u4 : Option String) :
    tr.Execute cfg { env with
      postUploadOpenErr := u1
      postUploadErr := u2
      outUploadErr := u3
      errUploadErr := u4 } = tr.Execute cfg env ∧
    (tr.Execute cfg env).1.countP isUploadEv = 3 ∧
    (tr.Execute cfg env).1.countP isPublishEv ≤ 1 ∧
    (tr.Execute cfg env).1.filter (fun e => isUploadEv e || isPublishEv e) =
      (tr.Execute cfg env).1.filter isUploadEv ++ (tr.Execute cfg env).1.filter isPublishEv ∧
    (∀ r ∈ publishedRecords (tr.Execute cfg env).1, r.files = resultFilesOf cfg tr) ∧
    (handleMessage cfg menv).1.countP isPublishEv ≤ 1 := by
  refine ⟨rfl, ?_, execute_publish_count cfg env tr, ?_, ?_,
    handleMessage_publish_count cfg menv⟩
  · rcases henc : env.encodeErr with _ | e
    · rcases hcl : cfg.cleanupTempFiles <;>
        simp [TransitionMsg.Execute, henc, hcl, isUploadEv, List.countP_cons]
    · simp [TransitionMsg.Execute, henc, isUploadEv, List.countP_cons]
  · rcases henc : env.encodeErr with _ | e
    · rcases hcl : cfg.cleanupTempFiles <;>
        simp [TransitionMsg.Execute, henc, hcl, isUploadEv, isPublishEv, List.filter]
    · simp [TransitionMsg.Execute, henc, isUploadEv, isPublishEv, List.filter]
  · rcases henc : env.encodeErr with _ | e
    · rcases hcl : cfg.cleanupTempFiles <;>
        simp [TransitionMsg.Execute, henc, hcl, publishedRecords, execRecord]
    · simp [TransitionMsg.Execute, henc, publishedRecords]

/-- C9, counterexample: at a concrete delivery with cleanup enabled whose
block_1.ssz fetch fails, the message is rejected and no record is emitted
— but the staging directory, whose creation the trace shows, is never
removed: the claimed best-effort cleanup does not happen on the fetch
failure path. -/
theorem fetchFailure_leaks_dir_concrete :
    cfg0.cleanupTempFiles = true ∧
    (handleMessage cfg0 (msgEnv block1Fails okExec)).2 = AckAction.nack ∧
    publishedRecords (handleMessage cfg0 (msgEnv block1Fails okExec)).1 = [] ∧
    (handleMessage cfg0 (msgEnv block1Fails okExec)).1.countP isMkdirEv = 1 ∧
    (handleMessage cfg0 (msgEnv block1Fails okExec)).1.countP isRemoveEv = 0 := by
  decide

/-- C9, amended: when an input fetch fails the message is rejected and no
record is emitted, but the staging directory is not cleaned up — no
removal appears in the trace; the directory is removed (with cleanup
enabled) only when Execute runs to completion past the record emission,
and an encode failure also returns before any cleanup. -/
theorem fetchFailure_no_cleanup (cfg : Config) (env : MsgEnv)
    (tm : TransitionMsg) (e : String)
    (hdec : env.decoded = some tm)
    (hv : tm.specVersion = cfg.specVersion)
    (hc : tm.specConfig = cfg.specConfig)
    (hload : (TransitionMsg.LoadFromBucket cfg env.fetchEnv
      { tm with resultKey := uniqueID env.randomBytes }).2 = some e) :
    (handleMessage cfg env).2 = AckAction.nack ∧
    publishedRecords (handleMessage cfg env).1 = [] ∧
    (handleMessage cfg env).1.countP isRemoveEv = 0 ∧
    (∀ (cfg2 : Config) (env2 : ExecEnv) (tr2 : TransitionMsg),
      cfg2.cleanupTempFiles = true → env2.encodeErr = none →
      Event.removeDir (tr2.DirPath cfg2) ∈ (tr2.Execute cfg2 env2).1) ∧
    (∀ (cfg2 : Config) (env2 : ExecEnv) (tr2 : TransitionMsg) (e2 : String),
      env2.encodeErr = some e2 → (tr2.Execute cfg2 env2).1.countP isRemoveEv = 0) := by
  rw [handleMessage_matched cfg env tm hdec hv hc]
  have hevs := loadFromBucket_events cfg env.fetchEnv
    { tm with resultKey := uniqueID env.randomBytes }
  rcases hL : TransitionMsg.LoadFromBucket cfg env.fetchEnv
      { tm with resultKey := uniqueID env.randomBytes } with ⟨evs, res⟩
  rw [hL] at hload hevs
  subst hload
  refine ⟨rfl, ?_, ?_, ?_, ?_⟩
  · rw [publishedRecords, List.filterMap_eq_nil_iff]
    intro a ha
    have := (hevs a ha).2.1
    cases a <;> simp_all [isPublishEv]
  · rw [List.countP_eq_zero]
    intro a ha
    simp [(hevs a ha).2.2]
  · intro cfg2 env2 tr2 hcl henc2
    simp [TransitionMsg.Execute, henc2, hcl]
  · intro cfg2 env2 tr2 e2 henc2
    simp [TransitionMsg.Execute, henc2, isRemoveEv, List.countP_cons]

/-- C9, witness: the amended statement at the concrete block_1.ssz
fetch-failure delivery. -/
theorem fetchFailure_no_cleanup_witness :
    (handleMessage cfg0 (msgEnv block1Fails okExec)).2 = AckAction.nack ∧
    publishedRecords (handleMessage cfg0 (msgEnv block1Fails okExec)).1 = [] ∧
    (handleMessage cfg0 (msgEnv block1Fails okExec)).1.countP isRemoveEv = 0 ∧
    (∀ (cfg2 : Config) (env2 : ExecEnv) (tr2 : TransitionMsg),
      cfg2.cleanupTempFiles = true → env2.encodeErr = none →
      Event.removeDir (tr2.DirPath cfg2) ∈ (tr2.Execute cfg2 env2).1) ∧
    (∀ (cfg2 : Config) (env2 : ExecEnv) (tr2 : TransitionMsg) (e2 : String),
      env2.encodeErr = some e2 → (tr2.Execute cfg2 env2).1.countP isRemoveEv = 0) :=
  fetchFailure_no_cleanup cfg0 (msgEnv block1Fails okExec) tm0
    "failed to load pre.ssz for spec version v0.8.3 task t1: storage: object does not exist"
    rfl rfl rfl (by decide)

/-- C10, confirmed: a decoded message whose spec-version or spec-config
differs from the worker configuration is acknowledged with an empty trace:
no directory is staged, no input fetched, no command run, no record
published. -/
theorem specMismatch_acked_without_work (cfg : Config) (env : MsgEnv)
    (tm : TransitionMsg)
    (hdec : env.decoded = some tm)
    (hne : tm.specVersion ≠ cfg.specVersion ∨ tm.specConfig ≠ cfg.specConfig) :
    handleMessage cfg env = ([], AckAction.ack) := by
  rcases hne with h | h
  · simp [handleMessage, hdec, h]
  · by_cases hv : tm.specVersion = cfg.specVersion
    · simp [handleMessage, hdec, hv, h]
    · simp [handleMessage, hdec, hv]

/-- C10, witness: a concrete delivery targeting spec version v0.9.0 at the
v0.8.3 worker is acked with an empty trace. -/
theorem specMismatch_acked_witness :
    handleMessage cfg0
      { decoded := some { tm0 with specVersion := "v0.9.0" }
        randomBytes := List.replicate 32 0
        fetchEnv := okFetch
        execEnv := okExec } = ([], AckAction.ack) :=
  specMismatch_acked_without_work cfg0 _ { tm0 with specVersion := "v0.9.0" } rfl
    (Or.inl (by decide))

end Muskoka
